import Mathlib

set_option maxHeartbeats 1000000

/-
Verification development for the mySub subscription-management pipeline
(src/main.py, src/sub.py).  Python strings are modelled as Lean `String`
(working over `String.data : List Char`); Python ints as `Nat`/`Int`;
network effects as explicit outcome values passed to the embedded
functions; Python exceptions as `Option`/`Except` results.  Character
class predicates (whitespace, digits, lower-casing) are modelled on the
ASCII range, which is the range exercised by the program's string
literals and by concrete witnesses below.
-/

namespace MySub

/-! ### Text primitives (Python str operations) -/

/-- Whitespace characters recognised by Python str.strip (ASCII part of
    the Unicode whitespace class). -/
def pySpace (c : Char) : Bool :=
  c = ' ' || c = '\t' || c = '\n' || c = '\r' || c = '\x0b' || c = '\x0c'

/-- Remove trailing whitespace. -/
def stripEnd (cs : List Char) : List Char :=
  (cs.reverse.dropWhile pySpace).reverse

/-- Python str.strip on a character list. -/
def stripL (cs : List Char) : List Char :=
  stripEnd (cs.dropWhile pySpace)

/-- Python substring test `sub in hay` on character lists. -/
def containsL : List Char → List Char → Bool
  | [], sub => sub.isEmpty
  | c :: t, sub => sub.isPrefixOf (c :: t) || containsL t sub

/-- Python substring test `sub in s`. -/
def pyContains (s sub : String) : Bool :=
  containsL s.data sub.data

/-- Character membership, Python `c in s` for a single character. -/
def hasChar (cs : List Char) (c : Char) : Bool :=
  cs.any (fun x => x = c)

/-- Worker for Python str.count: non-overlapping occurrences, scanning
    left to right; `skip` counts the characters still to pass over
    inside a match already counted. -/
def countSkip : List Char → List Char → Nat → Nat
  | [], _, _ => 0
  | _ :: t, sub, skip + 1 => countSkip t sub skip
  | c :: t, sub, 0 =>
    if sub.isPrefixOf (c :: t) then countSkip t sub (sub.length - 1) + 1
    else countSkip t sub 0

/-- Python str.count of a nonempty pattern (the only use in the
    program; the source never counts an empty pattern). -/
def countL (hay sub : List Char) : Nat :=
  countSkip hay sub 0

/-- Python str.count. -/
def pyCount (s sub : String) : Nat :=
  countL s.data sub.data

/-- Python str.lower (ASCII). -/
def lowerL (cs : List Char) : List Char :=
  cs.map Char.toLower

/-- Python str.split on a single newline character. -/
def splitNL : List Char → List (List Char)
  | [] => [[]]
  | c :: t =>
    if c = '\n' then [] :: splitNL t
    else
      match splitNL t with
      | [] => [[c]]
      | l :: ls => (c :: l) :: ls

/-- Number of lines of `cs` (split at newlines) whose strip is nonempty:
    models `len([line.strip() for line in s.split('\n') if line.strip()])`. -/
def nonEmptyLineCount (cs : List Char) : Nat :=
  ((splitNL cs).filter (fun l => !(stripL l).isEmpty)).length

/-- Collect the maximal runs of ASCII digits (`cur` is the run being
    read, in reverse). -/
def digitRunsAux : List Char → List Char → List (List Char)
  | [], cur => if cur.isEmpty then [] else [cur.reverse]
  | c :: t, cur =>
    if c.isDigit then digitRunsAux t (c :: cur)
    else if cur.isEmpty then digitRunsAux t [] else cur.reverse :: digitRunsAux t []

/-- Numeric value of a digit run (Python int of the matched text). -/
def numVal (ds : List Char) : Nat :=
  ds.foldl (fun a c => 10 * a + (c.toNat - 48)) 0

/-- Models `[int(m) for m in re.findall(r'\d+', s)]` (ASCII digits). -/
def findallDigits (s : String) : List Nat :=
  (digitRunsAux s.data []).map numVal

/-- Python url.split(' ')[-1]: the substring after the last space
    (the whole string when no space occurs). -/
def afterLastSpace (s : String) : String :=
  ⟨(s.data.reverse.takeWhile (fun c => c ≠ ' ')).reverse⟩

/-! ### get_domain (src/main.py lines 365-381)

The source calls Python urlparse and keeps the netloc.  We embed the
netloc computation of urllib.parse.urlsplit (CPython 3.11+): strip
C0-control and space characters from the LEFT end only (CPython
deliberately preserves trailing space), delete every tab/CR/LF, split
off a valid scheme at the first colon, and when the remainder begins
with `//` read the netloc up to the next `/`, `?` or `#`.  Unbalanced
square brackets in the netloc raise ValueError, and since CPython 3.11
a bracketed host must be a valid IPv6 (or IPvFuture) literal or
ValueError is raised as well; get_domain catches either and returns its
input.  (_checknetloc's NFKC check concerns only non-ASCII netlocs and
is outside the model's ASCII scope.) -/

/-- WHATWG C0-control-or-space class stripped by urlsplit. -/
def ctrlOrSpace (c : Char) : Bool :=
  c.toNat ≤ 32

/-- Input sanitisation performed by urlsplit: lstrip of control/space
    (the right end is preserved), then removal of the unsafe bytes
    tab, CR and LF. -/
def urlSanitize (s : String) : List Char :=
  (s.data.dropWhile ctrlOrSpace).filter
    (fun c => c ≠ '\t' ∧ c ≠ '\r' ∧ c ≠ '\n')

/-- Characters allowed in a URL scheme after the leading letter. -/
def isSchemeChar (c : Char) : Bool :=
  c.isAlphanum || c = '+' || c = '-' || c = '.'

/-- Whether a nonempty character list is a valid scheme (leading ASCII
    letter, then scheme characters only). -/
def validScheme : List Char → Bool
  | [] => false
  | c :: rest => c.isAlpha && (c :: rest).all isSchemeChar

/-- Scan to the first colon; if the text before it is a valid scheme,
    return the remainder after the colon. -/
def schemeSplitGo : List Char → List Char → Option (List Char)
  | [], _ => none
  | c :: rest, pre =>
    if c = ':' then (if validScheme pre.reverse then some rest else none)
    else schemeSplitGo rest (c :: pre)

/-- Drop a leading `scheme:` when present. -/
def splitScheme (cs : List Char) : List Char :=
  match schemeSplitGo cs [] with
  | some rest => rest
  | none => cs

/-- Split at a separator character (Python str.split for one-character
    separators). -/
def splitOnC (sep : Char) : List Char → List (List Char)
  | [] => [[]]
  | c :: t =>
    if c = sep then [] :: splitOnC sep t
    else
      match splitOnC sep t with
      | [] => [[c]]
      | l :: ls => (c :: l) :: ls

/-- Hexadecimal digit (both cases). -/
def isHexDigitC (c : Char) : Bool :=
  c.isDigit || ('a' ≤ c && c ≤ 'f') || ('A' ≤ c && c ≤ 'F')

/-- One dotted-decimal octet as accepted by ipaddress.IPv4Address:
    ASCII digits only, at most three of them, no leading zero, value at
    most 255. -/
def parseOctet (cs : List Char) : Option Nat :=
  match cs with
  | [] => none
  | c0 :: rest =>
    if !(c0 :: rest).all Char.isDigit then none
    else if 3 < (c0 :: rest).length then none
    else if c0 = '0' ∧ rest ≠ [] then none
    else
      let v := numVal (c0 :: rest)
      if 255 < v then none else some v

/-- The 32-bit value of a valid IPv4 literal (ipaddress.IPv4Address). -/
def ipv4Int (cs : List Char) : Option Nat :=
  match splitOnC '.' cs with
  | [a, b, c, d] =>
    match parseOctet a, parseOctet b, parseOctet c, parseOctet d with
    | some x, some y, some z, some w => some (((x * 256 + y) * 256 + z) * 256 + w)
    | _, _, _, _ => none
  | _ => none

/-- Lowercase hexadecimal digit character. -/
def hexDigitLower (n : Nat) : Char :=
  if n < 10 then Char.ofNat (48 + n) else Char.ofNat (87 + n)

/-- Minimal lowercase hexadecimal rendering of a value below 2^16
    (Python '%x' formatting). -/
def toHex4 (n : Nat) : List Char :=
  match ([hexDigitLower (n / 4096 % 16), hexDigitLower (n / 256 % 16),
      hexDigitLower (n / 16 % 16), hexDigitLower (n % 16)]).dropWhile (fun c => c = '0') with
  | [] => ['0']
  | l => l

/-- A valid IPv6 hextet: one to four hexadecimal digits. -/
def parseHextet (cs : List Char) : Bool :=
  !cs.isEmpty && decide (cs.length ≤ 4) && cs.all isHexDigitC

/-- Replace a trailing embedded IPv4 part by its two hextets, as
    ipaddress's IPv6 parser does; `none` when the dotted part is not a
    valid IPv4 literal. -/
def expandV4 (parts : List (List Char)) : Option (List (List Char)) :=
  match parts.getLast? with
  | none => some parts
  | some last =>
    if hasChar last '.' then
      match ipv4Int last with
      | some v => some (parts.dropLast ++ [toHex4 (v / 65536), toHex4 (v % 65536)])
      | none => none
    else some parts

/-- The colon-part discipline of ipaddress's IPv6 parser: at most one
    inner empty part (the `::`), a leading or trailing colon only as
    part of it, at most seven explicit hextets beside it (or exactly
    eight parts without it), every explicit part a valid hextet. -/
def checkParts (parts : List (List Char)) : Bool :=
  let n := parts.length
  let headEmpty := (parts.headD ['x']).isEmpty
  let lastEmpty := (parts.getLastD ['x']).isEmpty
  let inner := (parts.drop 1).dropLast
  let emptyCount := (inner.filter (fun p => p.isEmpty)).length
  if 2 ≤ emptyCount then false
  else if emptyCount = 1 then
    let skip := 1 + inner.findIdx (fun p => p.isEmpty)
    if headEmpty ∧ skip ≠ 1 then false
    else if lastEmpty ∧ skip ≠ n - 2 then false
    else
      let partsHi := if headEmpty then 0 else skip
      let partsLo := (n - skip - 1) - (if lastEmpty then 1 else 0)
      if 8 ≤ partsHi + partsLo then false
      else (parts.take partsHi).all parseHextet && (parts.drop (n - partsLo)).all parseHextet
  else
    if n ≠ 8 then false
    else if headEmpty ∨ lastEmpty then false
    else parts.all parseHextet

/-- Validity of an IPv6 address literal without scope
    (ipaddress.IPv6Address._ip_int_from_string). -/
def ipv6Valid (addr : List Char) : Bool :=
  if addr.isEmpty then false
  else
    let parts0 := splitOnC ':' addr
    if parts0.length < 3 then false
    else
      match expandV4 parts0 with
      | none => false
      | some parts => if 9 < parts.length then false else checkParts parts

/-- IPv6 literal with an optional nonempty %scope suffix
    (ipaddress.IPv6Address, CPython 3.9+). -/
def ipv6WithScope (cs : List Char) : Bool :=
  if hasChar cs '%' then
    let addr := cs.takeWhile (fun c => c ≠ '%')
    let scope := (cs.dropWhile (fun c => c ≠ '%')).drop 1
    if scope.isEmpty || hasChar scope '%' then false else ipv6Valid addr
  else ipv6Valid cs

/-- The IPvFuture shape `v` hex+ `.` rest accepted by
    _check_bracketed_host for hosts starting with `v`. -/
def vFutureOk (cs : List Char) : Bool :=
  match cs with
  | 'v' :: rest =>
    let hexRun := rest.takeWhile isHexDigitC
    let after := rest.dropWhile isHexDigitC
    !hexRun.isEmpty &&
      (match after with
       | '.' :: tail => !tail.isEmpty
       | _ => false)
  | _ => false

/-- Text between the first `[` and the following `]` of the netloc
    (netloc.partition of both brackets). -/
def bracketedHost (netloc : List Char) : List Char :=
  ((netloc.dropWhile (fun c => c ≠ '[')).drop 1).takeWhile (fun c => c ≠ ']')

/-- _check_bracketed_host (CPython 3.11+): a host starting with `v`
    must have the IPvFuture shape, anything else must be a valid IPv6
    literal (a bracketed IPv4 address is rejected explicitly, and any
    other string fails ip_address). -/
def bracketedOk (content : List Char) : Bool :=
  match content with
  | 'v' :: _ => vFutureOk content
  | _ => ipv6WithScope content

/-- The netloc of urlsplit; `none` models the ValueError raised on
    unbalanced brackets or (CPython 3.11+) an invalid bracketed host. -/
def urlsplitNetloc (url : String) : Option (List Char) :=
  let rest := splitScheme (urlSanitize url)
  if rest.take 2 = ['/', '/'] then
    let nl := (rest.drop 2).takeWhile (fun c => c ≠ '/' ∧ c ≠ '?' ∧ c ≠ '#')
    if ('[' ∈ nl ∧ ']' ∉ nl) ∨ (']' ∈ nl ∧ '[' ∉ nl) then none
    else if '[' ∈ nl ∧ ']' ∈ nl then
      if bracketedOk (bracketedHost nl) then some nl else none
    else some nl
  else
    some []

/-- get_domain (src/main.py lines 365-381): hostname of the URL, port
    removed, leading `www.` removed; the input itself when the netloc is
    empty or parsing raises. -/
def get_domain (url : String) : String :=
  match urlsplitNetloc url with
  | none => url
  | some [] => url
  | some (c :: nl) =>
    let domain := ((c :: nl).takeWhile (fun x => x ≠ ':'))
    let domain := if ("www.".data).isPrefixOf domain then domain.drop 4 else domain
    ⟨domain⟩

/-! ### deduplicate_urls_by_domain (src/main.py lines 383-404) -/

/-- Insertion-ordered dictionary update, as Python dict assignment: an
    existing key keeps its position and receives the new value, a new
    key is appended at the end. -/
def dictInsert : List (String × String) → String → String → List (String × String)
  | [], k, v => [(k, v)]
  | (k1, v1) :: rest, k, v =>
    if k1 = k then (k, v) :: rest else (k1, v1) :: dictInsert rest k v

/-- Loop body of deduplicate_urls_by_domain for one url: clean the
    info-prefixed form, key on the domain when it is truthy (nonempty),
    otherwise on the url itself; the stored value is always the full
    original string. -/
def dedupStep (d : List (String × String)) (url : String) : List (String × String) :=
  let cleaned := if hasChar url.data ' ' ∧ pyContains url "http" then afterLastSpace url else url
  let domain := get_domain cleaned
  if domain ≠ "" then dictInsert d domain url else dictInsert d url url

/-- The dictionary key that the loop body assigns to `url`. -/
def keyFn (url : String) : String :=
  let cleaned := if hasChar url.data ' ' ∧ pyContains url "http" then afterLastSpace url else url
  let domain := get_domain cleaned
  if domain ≠ "" then domain else url

/-- The domain_to_url dictionary after the loop. -/
def buildDict (urls : List String) : List (String × String) :=
  urls.foldl dedupStep []

/-- deduplicate_urls_by_domain (src/main.py lines 383-404): value list
    of the domain_to_url dictionary. -/
def deduplicate_urls_by_domain (url_list : List String) : List String :=
  (buildDict url_list).map Prod.snd

/-- Key list of a dictionary. -/
def keysOf (d : List (String × String)) : List String :=
  d.map Prod.fst

/-- Lookup in the dictionary model. -/
def dictFind (d : List (String × String)) (k : String) : Option String :=
  match d with
  | [] => none
  | (k1, v1) :: rest => if k1 = k then some v1 else dictFind rest k

/-! ### Classification verdicts (sub_check, src/main.py lines 88-221)

The source builds a dict {"url": ..., "type": ..., "info": ...} and
returns it, or returns None.  We model a returned dict as a `Verdict`
(the source field name `type` is `vtype` here). -/

structure Verdict where
  url : String
  vtype : String
  info : Option String
deriving DecidableEq, Repr

/-- Round to the nearest integer number of hundredths of `n / 2^30`,
    ties to even: the value of Python `round((t-u-d)/(1024**3), 2)` in
    units of 1/100.  For `n < 2^53` the Python float computation is
    exact (an integer below 2^53 is exactly representable and division
    by a power of two is exact), and Python round performs correctly
    rounded half-to-even decimal rounding of that exact value. -/
def roundHalfEvenCenti (n : Nat) : Nat :=
  let q := (100 * n) / 2 ^ 30
  let r := (100 * n) % 2 ^ 30
  if 2 * r < 2 ^ 30 then q
  else if 2 ^ 30 < 2 * r then q + 1
  else if q % 2 = 0 then q else q + 1

/-- Python repr of the float k/100 (shortest round-trip decimal): the
    decimal rendering of k/100 with trailing zeros removed but at least
    one digit after the point. -/
def reprCenti (k : Nat) : String :=
  let ip := k / 100
  let fr := k % 100
  if fr = 0 then toString ip ++ ".0"
  else if fr % 10 = 0 then toString ip ++ "." ++ toString (fr / 10)
  else if fr < 10 then toString ip ++ ".0" ++ toString fr
  else toString ip ++ "." ++ toString fr

/-- Rendering of `round(n / (1024**3), 2)` for `n` available bytes. -/
def formatGB (n : Nat) : String :=
  reprCenti (roundHalfEvenCenti n)

/-- Airport-subscription check (src/main.py lines 117-128): at least
    three integers embedded in the subscription-userinfo header, read as
    upload, download, total; requires total > 0 and positive unused
    traffic. -/
def airportVerdict (url : String) : List Nat → Option Verdict
  | upload :: download :: total :: _ =>
    if 0 < total then
      if upload + download < total then
        some ⟨url, "机场订阅",
          some ("可用流量: " ++ formatGB (total - upload - download) ++ " GB")⟩
      else none
    else none
  | _ => none

/-- Airport check on the header value, when a header is present. -/
def airportCheck (url : String) (subInfo : Option String) : Option Verdict :=
  match subInfo with
  | none => none
  | some si => airportVerdict url (findallDigits si)

/-- Clash-subscription check (src/main.py lines 130-136). -/
def clashCheck (url text : String) : Option Verdict :=
  if pyContains text "proxies:" ∧ (pyContains text "name:" ∨ pyContains text "server:") then
    if 0 < pyCount text "- name:" then
      some ⟨url, "clash订阅", some ("包含 " ++ toString (pyCount text "- name:") ++ " 个节点")⟩
    else none
  else none

/-! ### base64 and UTF-8 decoding (used by the v2 check) -/

/-- Value of a standard base64 alphabet character. -/
def b64CharVal (c : Char) : Option Nat :=
  if 'A' ≤ c ∧ c ≤ 'Z' then some (c.toNat - 65)
  else if 'a' ≤ c ∧ c ≤ 'z' then some (c.toNat - 71)
  else if '0' ≤ c ∧ c ≤ '9' then some (c.toNat + 4)
  else if c = '+' then some 62
  else if c = '/' then some 63
  else none

/-- Worker for base64 decoding, mirroring binascii's a2b_base64 state
    machine in non-strict mode: `quadPos` is the position inside the
    current 4-digit group, `left` the leftover bits of the previous
    digit, `pads` the number of padding signs seen since the last data
    digit, `acc` the bytes emitted so far.  A byte is emitted on each
    second, third and fourth digit; a padding sign counts only when at
    least two digits of the group have been read, and the decode ends
    successfully once group position plus padding signs reach four;
    characters outside the alphabet are skipped; a group left
    incomplete at the end of the input is an error (none). -/
def b64Go : List Char → Nat → Nat → Nat → List Nat → Option (List Nat)
  | [], quadPos, _, _, acc => if quadPos = 0 then some acc else none
  | c :: rest, quadPos, left, pads, acc =>
    if c = '=' then
      if 2 ≤ quadPos then
        if 4 ≤ quadPos + (pads + 1) then some acc
        else b64Go rest quadPos left (pads + 1) acc
      else b64Go rest quadPos left pads acc
    else
      match b64CharVal c with
      | none => b64Go rest quadPos left pads acc
      | some v =>
        match quadPos with
        | 0 => b64Go rest 1 v 0 acc
        | 1 => b64Go rest 2 (v % 16) 0 (acc ++ [left * 4 + v / 16])
        | 2 => b64Go rest 3 (v % 4) 0 (acc ++ [left * 16 + v / 4])
        | _ => b64Go rest 0 0 0 (acc ++ [left * 64 + v])

/-- Python base64.b64decode applied to a str, with the default
    non-strict validation: the argument is first ASCII-encoded, so any
    non-ASCII character raises ValueError (none here — the source
    catches it and falls through to the raw check); then characters
    outside the alphabet are discarded, a padding sign after at least
    two pending digits ends the decode, and leftover digits without
    padding raise binascii.Error (also none). -/
def b64decode (s : String) : Option (List Nat) :=
  if s.data.all (fun c => c.toNat ≤ 127) then b64Go s.data 0 0 0 [] else none

/-- Continuation byte of UTF-8. -/
def contByte (b : Nat) : Bool :=
  128 ≤ b && b ≤ 191

/-- Allowed second byte of a three-byte UTF-8 sequence. -/
def utf8Snd3 (b b2 : Nat) : Bool :=
  if b = 224 then 160 ≤ b2 && b2 ≤ 191
  else if b = 237 then 128 ≤ b2 && b2 ≤ 159
  else contByte b2

/-- Allowed second byte of a four-byte UTF-8 sequence. -/
def utf8Snd4 (b b2 : Nat) : Bool :=
  if b = 240 then 144 ≤ b2 && b2 ≤ 191
  else if b = 244 then 128 ≤ b2 && b2 ≤ 143
  else contByte b2

/-- Worker for UTF-8 decoding, structurally recursive on a fuel
    argument; every step consumes at least one byte, so fuel equal to
    the byte count (as supplied by utf8Ignore) never runs out. -/
def utf8IgnoreF : Nat → List Nat → List Char
  | 0, _ => []
  | fuel + 1, bs =>
    match bs with
    | [] => []
    | b :: rest =>
      if b ≤ 127 then Char.ofNat b :: utf8IgnoreF fuel rest
      else if 194 ≤ b && b ≤ 223 then
        match rest with
        | [] => []
        | b2 :: rest2 =>
          if contByte b2 then Char.ofNat ((b - 192) * 64 + (b2 - 128)) :: utf8IgnoreF fuel rest2
          else utf8IgnoreF fuel rest
      else if 224 ≤ b && b ≤ 239 then
        match rest with
        | [] => []
        | b2 :: rest2 =>
          if utf8Snd3 b b2 then
            match rest2 with
            | [] => []
            | b3 :: rest3 =>
              if contByte b3 then
                Char.ofNat ((b - 224) * 4096 + (b2 - 128) * 64 + (b3 - 128)) ::
                  utf8IgnoreF fuel rest3
              else utf8IgnoreF fuel rest2
          else utf8IgnoreF fuel rest
      else if 240 ≤ b && b ≤ 244 then
        match rest with
        | [] => []
        | b2 :: rest2 =>
          if utf8Snd4 b b2 then
            match rest2 with
            | [] => []
            | b3 :: rest3 =>
              if contByte b3 then
                match rest3 with
                | [] => []
                | b4 :: rest4 =>
                  if contByte b4 then
                    Char.ofNat ((b - 240) * 262144 + (b2 - 128) * 4096 +
                      (b3 - 128) * 64 + (b4 - 128)) :: utf8IgnoreF fuel rest4
                  else utf8IgnoreF fuel rest3
              else utf8IgnoreF fuel rest2
          else utf8IgnoreF fuel rest
      else utf8IgnoreF fuel rest

/-- Python bytes.decode('utf-8', errors='ignore'): decode UTF-8 and skip
    each maximal invalid subpart (an invalid sequence is skipped up to
    the first byte that no longer fits it). -/
def utf8Ignore (bs : List Nat) : List Char :=
  utf8IgnoreF bs.length bs

/-! ### v2-subscription checks (src/main.py lines 138-182) -/

/-- The five proxy-URI scheme markers. -/
def protocols : List String :=
  ["ss://", "ssr://", "vmess://", "trojan://", "vless://"]

/-- Configuration keywords looked for in the decoded text. -/
def config_keywords : List String :=
  ["server", "port", "password", "method", "host", "path"]

/-- text.strip() with all newline and carriage-return characters
    removed (replace('\n','').replace('\r','')). -/
def textClean (text : String) : String :=
  ⟨(stripL text.data).filter (fun c => c ≠ '\n' ∧ c ≠ '\r')⟩

/-- Scheme markers occurring in `s`, in declared order. -/
def foundProtocols (s : String) : List String :=
  protocols.filter (fun p => pyContains s p)

/-- Sum of occurrence counts of the found markers. -/
def nodeCount (s : String) (found : List String) : Nat :=
  (found.map (fun p => pyCount s p)).sum

/-- Base64 路径 of the v2 check (src/main.py lines 138-171). -/
def v2b64Check (url text : String) : Option Verdict :=
  if 20 < (textClean text).data.length then
    match b64decode (textClean text) with
    | some bytesList =>
      let decoded : String := ⟨utf8Ignore bytesList⟩
      if foundProtocols decoded ≠ [] then
        if 0 < nodeCount decoded (foundProtocols decoded) then
          some ⟨url, "v2订阅",
            some ("包含 " ++ toString (nodeCount decoded (foundProtocols decoded)) ++
              " 个节点 (base64)")⟩
        else none
      else
        if config_keywords.any (fun kw => pyContains ⟨lowerL decoded.data⟩ kw) then
          if 0 < nonEmptyLineCount decoded.data then
            some ⟨url, "v2订阅",
              some ("包含 " ++ toString (nonEmptyLineCount decoded.data) ++ " 行配置 (base64)")⟩
          else none
        else none
    | none => none
  else none

/-- Raw-format v2 check (src/main.py lines 173-182). -/
def v2rawCheck (url text : String) : Option Verdict :=
  if foundProtocols text ≠ [] then
    if 0 < nodeCount text (foundProtocols text) then
      some ⟨url, "v2订阅",
        some ("包含 " ++ toString (nodeCount text (foundProtocols text)) ++ " 个节点 (原始)")⟩
    else none
  else none

/-- Classification of a 200 response body (src/main.py lines 107-197):
    discard empty or short bodies, then try the airport, clash, base64
    v2 and raw v2 checks in order. -/
def classifyResponse (url : String) (subInfo : Option String) (text : String) : Option Verdict :=
  if text = "" ∨ (stripL text.data).length < 10 then none
  else
    airportCheck url subInfo <|> clashCheck url text <|>
      v2b64Check url text <|> v2rawCheck url text

/-! ### sub_check retry structure (src/main.py lines 104-221) -/

/-- Outcome of one HTTP attempt: timeout, other raised exception, or a
    response with status, subscription-userinfo header and body text. -/
inductive FetchOutcome where
  | timeout : FetchOutcome
  | exc : FetchOutcome
  | resp (status : Nat) (subInfo : Option String) (body : String) : FetchOutcome
deriving DecidableEq, Repr

/-- Statuses treated as permanent failures (src/main.py line 199). -/
def permanentStatus (s : Nat) : Bool :=
  s == 403 || s == 404 || s == 410 || s == 500

/-- Second (last) attempt of sub_check: a 200 response is classified,
    anything else gives None with no further retry. -/
def sub_check_second (url : String) (o2 : FetchOutcome) : Option Verdict × Nat × Nat :=
  match o2 with
  | .resp s si body => if s = 200 then (classifyResponse url si body, 2, 1) else (none, 2, 1)
  | _ => (none, 2, 1)

/-- sub_check (src/main.py lines 104-221) as a function of the outcomes
    of its (at most two) fetch attempts.  Besides the classification
    result it returns the number of attempts made and the seconds slept
    between attempts. -/
def sub_check (url : String) (o1 o2 : FetchOutcome) : Option Verdict × Nat × Nat :=
  match o1 with
  | .resp s si body =>
    if s = 200 then (classifyResponse url si body, 1, 0)
    else if permanentStatus s then (none, 1, 0)
    else sub_check_second url o2
  | _ => sub_check_second url o2

/-- Outcomes on which sub_check retries: timeout, other exception, or a
    status that is neither 200 nor in the permanent list. -/
def transientOutcome : FetchOutcome → Bool
  | .timeout => true
  | .exc => true
  | .resp s _ _ => !(s == 200) && !(permanentStatus s)

/-! ### url_check_valid (src/main.py lines 226-281) -/

/-- The persisted configuration record: the four category buckets and
    the channel-source list. -/
structure Config where
  airport : List String
  clash : List String
  v2 : List String
  play : List String
  tgchannel : List String
deriving DecidableEq, Repr

/-- The four rebuilt buckets of validate_existing_subscriptions. -/
structure Buckets where
  airport : List String
  clash : List String
  v2 : List String
  play : List String
deriving DecidableEq, Repr

/-- Insertion into a sorted list by the string order. -/
def insertSorted (a : String) : List String → List String
  | [] => [a]
  | b :: l => if a < b then a :: b :: l else b :: insertSorted a l

/-- Ascending sort of a string list (Python sorted). -/
def sortStrings (l : List String) : List String :=
  l.foldr insertSorted []

/-- One category's merge of main (src/main.py lines 524-543):
    sorted(list(set(existing + new))) followed by domain
    deduplication. -/
def mergeAndDedupe (existing new : List String) : List String :=
  deduplicate_urls_by_domain (sortStrings ((existing ++ new).dedup))

/-- The configuration persisted at the end of main (src/main.py lines
    511-551): the four buckets merged and deduplicated, the channel list
    taken unchanged from the loaded configuration. -/
def mainFinalConfig (config : Config) (validExisting : Buckets) (newResults : List Verdict) :
    Config :=
  { airport := mergeAndDedupe validExisting.airport
      (newResults.filterMap fun r => if r.vtype = "机场订阅" then some r.url else none)
    clash := mergeAndDedupe validExisting.clash
      (newResults.filterMap fun r => if r.vtype = "clash订阅" then some r.url else none)
    v2 := mergeAndDedupe validExisting.v2
      (newResults.filterMap fun r => if r.vtype = "v2订阅" then some r.url else none)
    play := mergeAndDedupe validExisting.play
      (newResults.filterMap fun r =>
        if r.vtype = "机场订阅" then
          match r.info with
          | some i => if i ≠ "" then some (i ++ " " ++ r.url) else none
          | none => none
        else none)
    tgchannel := config.tgchannel }

/-! ### Configuration loading (src/main.py lines 20-33)

Effects are explicit: the file system is `none` when the file does not
exist, otherwise the outcome of yaml.safe_load on its content — a
parsed configuration or a parse error.  The source has no handler around
the load, so a parse error propagates. -/

/-- A failure raised by the YAML parser. -/
inductive YamlError where
  | malformed : YamlError
deriving DecidableEq, Repr

/-- The default structure returned for a missing file (src/main.py
    lines 26-32). -/
def defaultConfig : Config :=
  ⟨[], [], [], [], []⟩

/-- load_yaml_config (src/main.py lines 20-33): missing file gives the
    default structure; an existing file's parse outcome — including a
    parse error — is returned as is. -/
def load_yaml_config (file : Option (Except YamlError Config)) : Except YamlError Config :=
  match file with
  | none => Except.ok defaultConfig
  | some outcome => outcome

/-! ### Concurrency coordinator (src/main.py lines 317-330, 434-443,
340-353)

Each unit of work runs `async with semaphore: probe`.  We model the
counting semaphore discipline as a transition system: a task may start
only by acquiring a permit (possible only when one is available) and
releases it on finish.  inFlight counts tasks currently holding a
permit, i.e. running their probe. -/

/-- Semaphore bound of check_subscriptions (src/main.py line 319). -/
def checkSubscriptionsSemaphore : Nat := 50

/-- Semaphore bound of validate_existing_subscriptions (src/main.py
    line 434). -/
def validateExistingSemaphore : Nat := 30

/-- Semaphore bound of check_nodes (src/main.py line 342). -/
def checkNodesSemaphore : Nat := 20

/-- State of a batch of semaphore-guarded probe tasks. -/
structure CoordState where
  pending : Nat
  inFlight : Nat
  finished : Nat
  avail : Nat
deriving DecidableEq, Repr

/-- Initial state: n submitted tasks, none started, all permits free. -/
def coordInit (n bound : Nat) : CoordState :=
  ⟨n, 0, 0, bound⟩

/-- One scheduler step: a pending task acquires a permit and starts, or
    a running task finishes and releases its permit. -/
inductive CoordStep : CoordState → CoordState → Prop
  | start (s : CoordState) (hp : 0 < s.pending) (ha : 0 < s.avail) :
      CoordStep s ⟨s.pending - 1, s.inFlight + 1, s.finished, s.avail - 1⟩
  | finish (s : CoordState) (hf : 0 < s.inFlight) :
      CoordStep s ⟨s.pending, s.inFlight - 1, s.finished + 1, s.avail + 1⟩

/-- States reachable from a batch of n tasks under a given bound. -/
inductive CoordReach (n bound : Nat) : CoordState → Prop
  | init : CoordReach n bound (coordInit n bound)
  | step {s s2 : CoordState} : CoordReach n bound s → CoordStep s s2 → CoordReach n bound s2

theorem dedupStep_eq (d : List (String × String)) (url : String) :
    dedupStep d url = dictInsert d (keyFn url) url := by
  unfold dedupStep keyFn
  split <;> (simp only []; split <;> rfl)

theorem length_dictInsert (d : List (String × String)) (k v : String) :
    (dictInsert d k v).length ≤ d.length + 1 := by
  induction d with
  | nil => simp [dictInsert]
  | cons p rest ih =>
    obtain ⟨k1, v1⟩ := p
    simp only [dictInsert]
    split
    · simp
    · simpa using ih

theorem mem_keysOf_dictInsert {d : List (String × String)} {a k v : String}
    (h : a ∈ keysOf (dictInsert d k v)) : a ∈ keysOf d ∨ a = k := by
  induction d with
  | nil => simpa [dictInsert, keysOf] using h
  | cons p rest ih =>
    obtain ⟨k1, v1⟩ := p
    simp only [dictInsert] at h
    split at h
    · rename_i hk
      simp only [keysOf, List.map_cons, List.mem_cons] at h ⊢
      rcases h with h | h
      · exact Or.inr h
      · exact Or.inl (Or.inr h)
    · simp only [keysOf, List.map_cons, List.mem_cons] at h ⊢
      rcases h with h | h
      · exact Or.inl (Or.inl h)
      · rcases ih h with h2 | h2
        · exact Or.inl (Or.inr h2)
        · exact Or.inr h2

theorem keysOf_nodup_dictInsert {d : List (String × String)} {k v : String}
    (h : (keysOf d).Nodup) : (keysOf (dictInsert d k v)).Nodup := by
  induction d with
  | nil => simp [dictInsert, keysOf]
  | cons p rest ih =>
    obtain ⟨k1, v1⟩ := p
    simp only [keysOf, List.map_cons, List.nodup_cons] at h
    simp only [dictInsert]
    split
    · rename_i hk
      subst hk
      simp only [keysOf, List.map_cons, List.nodup_cons]
      exact h
    · rename_i hk
      simp only [keysOf, List.map_cons, List.nodup_cons]
      constructor
      · intro hmem
        rcases mem_keysOf_dictInsert hmem with h2 | h2
        · exact h.1 h2
        · exact hk h2
      · exact ih h.2

theorem mem_dictInsert {d : List (String × String)} {p : String × String} {k v : String}
    (h : p ∈ dictInsert d k v) : p ∈ d ∨ p = (k, v) := by
  induction d with
  | nil => simpa [dictInsert] using h
  | cons q rest ih =>
    obtain ⟨k1, v1⟩ := q
    simp only [dictInsert] at h
    split at h
    · simp only [List.mem_cons] at h ⊢
      rcases h with h | h
      · exact Or.inr h
      · exact Or.inl (Or.inr h)
    · simp only [List.mem_cons] at h ⊢
      rcases h with h | h
      · exact Or.inl (Or.inl h)
      · rcases ih h with h2 | h2
        · exact Or.inl (Or.inr h2)
        · exact Or.inr h2

theorem dictFind_dictInsert_self (d : List (String × String)) (k v : String) :
    dictFind (dictInsert d k v) k = some v := by
  induction d with
  | nil => simp [dictInsert, dictFind]
  | cons p rest ih =>
    obtain ⟨k1, v1⟩ := p
    simp only [dictInsert]
    split
    · simp [dictFind]
    · rename_i hk
      simp only [dictFind, if_neg hk]
      exact ih

theorem dictFind_dictInsert_other (d : List (String × String)) {k k1 : String} (v : String)
    (h : k1 ≠ k) : dictFind (dictInsert d k v) k1 = dictFind d k1 := by
  have hne : k ≠ k1 := fun h2 => h h2.symm
  induction d with
  | nil =>
    simp only [dictInsert, dictFind]
    rw [if_neg hne]
  | cons p rest ih =>
    obtain ⟨k2, v2⟩ := p
    simp only [dictInsert]
    split
    · rename_i hk
      subst hk
      simp only [dictFind]
      rw [if_neg hne, if_neg hne]
    · simp only [dictFind]
      split
      · rfl
      · exact ih

theorem dictFind_eq_none_of_not_mem {d : List (String × String)} {k : String}
    (h : k ∉ keysOf d) : dictFind d k = none := by
  induction d with
  | nil => rfl
  | cons p rest ih =>
    obtain ⟨k1, v1⟩ := p
    simp only [keysOf, List.map_cons, List.mem_cons] at h
    push_neg at h
    simp only [dictFind]
    rw [if_neg (fun h2 => h.1 h2.symm)]
    exact ih (by simpa [keysOf] using h.2)

theorem buildDict_entry_key : ∀ (urls : List String) (d : List (String × String)),
    (∀ p ∈ d, p.1 = keyFn p.2) → ∀ p ∈ urls.foldl dedupStep d, p.1 = keyFn p.2 := by
  intro urls
  induction urls with
  | nil => intro d h p hp; exact h p hp
  | cons u rest ih =>
    intro d h p hp
    simp only [List.foldl_cons] at hp
    refine ih _ ?_ p hp
    intro q hq
    rw [dedupStep_eq] at hq
    rcases mem_dictInsert hq with h2 | h2
    · exact h q h2
    · subst h2; rfl

theorem buildDict_keys_nodup : ∀ (urls : List String) (d : List (String × String)),
    (keysOf d).Nodup → (keysOf (urls.foldl dedupStep d)).Nodup := by
  intro urls
  induction urls with
  | nil => intro d h; exact h
  | cons u rest ih =>
    intro d h
    simp only [List.foldl_cons]
    refine ih _ ?_
    rw [dedupStep_eq]
    exact keysOf_nodup_dictInsert h

theorem foldl_dedupStep_length : ∀ (urls : List String) (d : List (String × String)),
    (urls.foldl dedupStep d).length ≤ d.length + urls.length := by
  intro urls
  induction urls with
  | nil => intro d; simp
  | cons u rest ih =>
    intro d
    simp only [List.foldl_cons, List.length_cons]
    calc (rest.foldl dedupStep (dedupStep d u)).length
        ≤ (dedupStep d u).length + rest.length := ih _
      _ ≤ (d.length + 1) + rest.length := by
          have := length_dictInsert d (keyFn u) u
          rw [dedupStep_eq]
          omega
      _ = d.length + (rest.length + 1) := by omega

theorem dictFind_buildDict (urls : List String) (k : String) :
    dictFind (buildDict urls) k = (urls.filter (fun u => keyFn u == k)).getLast? := by
  induction urls using List.reverseRecOn with
  | nil => rfl
  | append_singleton us u ih =>
    rw [buildDict, List.foldl_append, List.foldl_cons, List.foldl_nil, dedupStep_eq,
      List.filter_append]
    by_cases hk : keyFn u = k
    · subst hk
      rw [dictFind_dictInsert_self]
      simp only [List.filter_cons, List.filter_nil, beq_self_eq_true, if_true]
      rw [List.getLast?_concat]
    · rw [dictFind_dictInsert_other _ _ (fun h2 => hk h2.symm)]
      simp only [List.filter_cons, List.filter_nil]
      rw [if_neg (by simpa using hk), List.append_nil]
      exact ih

theorem filter_key_eq : ∀ (d : List (String × String)), (keysOf d).Nodup →
    (∀ p ∈ d, p.1 = keyFn p.2) → ∀ k,
    (d.map Prod.snd).filter (fun v => keyFn v == k) =
      (match dictFind d k with
       | some v => [v]
       | none => []) := by
  intro d
  induction d with
  | nil => intro _ _ k; rfl
  | cons p rest ih =>
    intro hnd hinv k
    obtain ⟨k1, v1⟩ := p
    have hk1 : k1 = keyFn v1 := hinv (k1, v1) (List.mem_cons_self _ _)
    simp only [keysOf, List.map_cons, List.nodup_cons] at hnd
    simp only [List.map_cons, List.filter_cons, dictFind]
    by_cases hkk : k1 = k
    · subst hkk
      rw [if_pos rfl, if_pos (by simp [← hk1])]
      have hrest : dictFind rest k1 = none :=
        dictFind_eq_none_of_not_mem (by simpa [keysOf] using hnd.1)
      have := ih hnd.2 (fun q hq => hinv q (List.mem_cons_of_mem _ hq)) k1
      rw [hrest] at this
      rw [this]
    · rw [if_neg hkk, if_neg (by simp [← hk1, hkk])]
      exact ih hnd.2 (fun q hq => hinv q (List.mem_cons_of_mem _ hq)) k

/-! ### Helper lemmas about the classifier -/

theorem clashCheck_vtype {url text : String} {v : Verdict}
    (h : clashCheck url text = some v) : v.vtype = "clash订阅" := by
  unfold clashCheck at h
  split at h
  · split at h
    · cases Option.some.inj h
      rfl
    · exact Option.noConfusion h
  · exact Option.noConfusion h

theorem v2b64Check_vtype {url text : String} {v : Verdict}
    (h : v2b64Check url text = some v) : v.vtype = "v2订阅" := by
  unfold v2b64Check at h
  split at h
  · split at h
    · simp only [] at h
      split at h
      · split at h
        · cases Option.some.inj h
          rfl
        · exact Option.noConfusion h
      · split at h
        · split at h
          · cases Option.some.inj h
            rfl
          · exact Option.noConfusion h
        · exact Option.noConfusion h
    · exact Option.noConfusion h
  · exact Option.noConfusion h

theorem v2rawCheck_vtype {url text : String} {v : Verdict}
    (h : v2rawCheck url text = some v) : v.vtype = "v2订阅" := by
  unfold v2rawCheck at h
  split at h
  · split at h
    · cases Option.some.inj h
      rfl
    · exact Option.noConfusion h
  · exact Option.noConfusion h

/-- C1 (amended).  deduplicate_urls_by_domain returns at most as many
    entries as it was given; for every dictionary key present in the
    input exactly one entry survives, namely the input entry occurring
    last among those sharing that key, and the survivor is the full
    original input string; for an info-prefixed input (containing a
    space and the substring "http") the key is the domain computed from
    the substring after the last space when that domain is nonempty,
    and the full original string itself when that domain is empty. -/
theorem C1_dedupe_by_domain (url_list : List String) :
    (deduplicate_urls_by_domain url_list).length ≤ url_list.length ∧
    (∀ k, (∃ u ∈ url_list, keyFn u = k) →
      ∃ w, (url_list.filter (fun u => keyFn u == k)).getLast? = some w ∧ w ∈ url_list ∧
        (deduplicate_urls_by_domain url_list).filter (fun v => keyFn v == k) = [w]) ∧
    (∀ url : String, hasChar url.data ' ' = true → pyContains url "http" = true →
      ((get_domain (afterLastSpace url) ≠ "" → keyFn url = get_domain (afterLastSpace url)) ∧
       (get_domain (afterLastSpace url) = "" → keyFn url = url))) := by
  refine ⟨?_, ?_, ?_⟩
  · unfold deduplicate_urls_by_domain
    rw [List.length_map]
    have := foldl_dedupStep_length url_list []
    simpa [buildDict] using this
  · rintro k ⟨u, hu, hk⟩
    have hne : url_list.filter (fun u => keyFn u == k) ≠ [] := by
      intro hnil
      have hmem : u ∈ url_list.filter (fun u => keyFn u == k) :=
        List.mem_filter.2 ⟨hu, by simp [hk]⟩
      rw [hnil] at hmem
      exact absurd hmem (List.not_mem_nil u)
    obtain ⟨w, hw⟩ : ∃ w, (url_list.filter (fun u => keyFn u == k)).getLast? = some w :=
      ⟨_, List.getLast?_eq_getLast_of_ne_nil hne⟩
    refine ⟨w, hw, ?_, ?_⟩
    · obtain ⟨hne2, hwl⟩ := List.mem_getLast?_eq_getLast (show w ∈ _ from hw)
      rw [hwl]
      exact List.mem_of_mem_filter (List.getLast_mem hne2)
    · have h1 := filter_key_eq (buildDict url_list)
        (buildDict_keys_nodup url_list [] (by simp [keysOf]))
        (buildDict_entry_key url_list [] (by simp)) k
      rw [dictFind_buildDict, hw] at h1
      exact h1
  · intro url h1 h2
    constructor <;> intro h3 <;> simp [keyFn, h1, h2, h3]

/-- C1 counterexample to the claim as stated: both entries are
    info-prefixed and share the same substring after the last space, so
    under the claimed keying exactly one of them would survive; the code
    computes an empty domain for that substring, keys each entry by its
    full original string, and keeps both. -/
theorem C1_counterexample :
    get_domain (afterLastSpace "a http://www./q") = "" ∧
    keyFn "a http://www./q" = "a http://www./q" ∧
    keyFn "b http://www./q" = "b http://www./q" ∧
    deduplicate_urls_by_domain ["a http://www./q", "b http://www./q"] =
      ["a http://www./q", "b http://www./q"] := by
  decide

/-- C1 witness: the amended theorem applied to a concrete input list in
    which the domain a.com occurs twice. -/
theorem C1_witness :
    (deduplicate_urls_by_domain ["http://a.com/1", "http://b.org/2", "http://a.com/3"]).length ≤
      (["http://a.com/1", "http://b.org/2", "http://a.com/3"] : List String).length ∧
    ((["http://a.com/1", "http://b.org/2", "http://a.com/3"] : List String).filter
        (fun u => keyFn u == "a.com")).getLast? = some "http://a.com/3" ∧
    (deduplicate_urls_by_domain ["http://a.com/1", "http://b.org/2", "http://a.com/3"]).filter
        (fun v => keyFn v == "a.com") = ["http://a.com/3"] := by
  obtain ⟨w, hw1, hw2, hw3⟩ :=
    (C1_dedupe_by_domain ["http://a.com/1", "http://b.org/2", "http://a.com/3"]).2.1 "a.com"
      ⟨"http://a.com/1", by decide, by decide⟩
  have hwe : w = "http://a.com/3" := by
    have h2 : ((["http://a.com/1", "http://b.org/2", "http://a.com/3"] : List String).filter
        (fun u => keyFn u == "a.com")).getLast? = some "http://a.com/3" := by decide
    rw [h2] at hw1
    exact (Option.some.inj hw1).symm
  subst hwe
  exact ⟨(C1_dedupe_by_domain _).1, hw1, hw3⟩

/-- C2 (amended): for a 200 response whose body passes the classifier's
    minimum-content gate (nonempty, trimmed length at least 10) and
    whose usage-info header embeds at least three integers u, d, t, the
    classifier returns an AirportSub (机场订阅) verdict exactly when
    t > 0 and t - u - d > 0, and then the verdict carries the summary
    可用流量: {GB} GB with the available bytes converted to GB and
    rounded to two decimals (formatGB is exact for t < 2^53, where the
    source's float arithmetic is exact). -/
theorem C2_airport_sub (url si text : String) (u d t : Nat) (restNums : List Nat)
    (hnums : findallDigits si = u :: d :: t :: restNums)
    (hne : text ≠ "") (hlen : 10 ≤ (stripL text.data).length) :
    ((∃ info, classifyResponse url (some si) text = some ⟨url, "机场订阅", info⟩) ↔
      (0 < t ∧ u + d < t)) ∧
    (0 < t → u + d < t →
      classifyResponse url (some si) text =
        some ⟨url, "机场订阅", some ("可用流量: " ++ formatGB (t - u - d) ++ " GB")⟩) := by
  have hg : ¬(text = "" ∨ (stripL text.data).length < 10) := by
    push_neg
    exact ⟨hne, by omega⟩
  have hbridge : airportCheck url (some si) = airportVerdict url (findallDigits si) := rfl
  by_cases hc : 0 < t ∧ u + d < t
  · have hair : airportCheck url (some si) =
        some ⟨url, "机场订阅", some ("可用流量: " ++ formatGB (t - u - d) ++ " GB")⟩ := by
      rw [hbridge, hnums]
      simp only [airportVerdict]
      rw [if_pos hc.1, if_pos hc.2]
    have hres : classifyResponse url (some si) text =
        some ⟨url, "机场订阅", some ("可用流量: " ++ formatGB (t - u - d) ++ " GB")⟩ := by
      unfold classifyResponse
      rw [if_neg hg, hair]
      rfl
    exact ⟨⟨fun _ => hc, fun _ => ⟨_, hres⟩⟩, fun _ _ => hres⟩
  · have hair : airportCheck url (some si) = none := by
      rw [hbridge, hnums]
      simp only [airportVerdict]
      by_cases h1 : 0 < t
      · rw [if_pos h1, if_neg (fun h2 => hc ⟨h1, h2⟩)]
      · rw [if_neg h1]
    refine ⟨⟨?_, fun hcond => absurd hcond hc⟩, fun h1 h2 => absurd ⟨h1, h2⟩ hc⟩
    rintro ⟨info, hres⟩
    exfalso
    unfold classifyResponse at hres
    rw [if_neg hg, hair] at hres
    simp only [Option.none_orElse] at hres
    cases hclash : clashCheck url text with
    | some v =>
      rw [hclash] at hres
      simp only [Option.some_orElse] at hres
      have := clashCheck_vtype hclash
      cases Option.some.inj hres
      simp at this
    | none =>
      rw [hclash] at hres
      simp only [Option.none_orElse] at hres
      cases hb : v2b64Check url text with
      | some v =>
        rw [hb] at hres
        simp only [Option.some_orElse] at hres
        have := v2b64Check_vtype hb
        cases Option.some.inj hres
        simp at this
      | none =>
        rw [hb] at hres
        simp only [Option.none_orElse] at hres
        have := v2rawCheck_vtype hres
        simp at this

/-- C2 counterexample to the claim as stated: the usage-info header
    parses as u = 100, d = 200, t = 1000 with t > 0 and t - u - d > 0,
    yet no AirportSub verdict is produced, because the empty body is
    discarded by the minimum-content gate before the header check. -/
theorem C2_counterexample :
    findallDigits "upload=100; download=200; total=1000" = [100, 200, 1000] ∧
    (0 < 1000 ∧ 100 + 200 < 1000) ∧
    classifyResponse "u" (some "upload=100; download=200; total=1000") "" = none := by
  decide

/-- C2 witness: the amended theorem at the header of the spec's boundary
    example (u = 100, d = 200, t = 1000) and a 10-character body, giving
    the summary 可用流量: 0.0 GB. -/
theorem C2_witness :
    classifyResponse "u" (some "upload=100; download=200; total=1000") "0123456789" =
      some ⟨"u", "机场订阅", some "可用流量: 0.0 GB"⟩ := by
  have h := (C2_airport_sub "u" "upload=100; download=200; total=1000" "0123456789"
    100 200 1000 [] (by decide) (by decide) (by decide)).2 (by decide) (by decide)
  rw [h]
  decide

/-- C6: sub_check performs at most two fetch attempts; a first-attempt
    status in {403, 404, 410, 500} returns None immediately with no
    second attempt and no sleep; a transient first outcome (timeout,
    other exception, or a status that is neither 200 nor permanent)
    leads to exactly one 1-second backoff and a second attempt; a
    non-transient first outcome ends after one attempt with no sleep. -/
theorem C6_retry_policy (url : String) (o1 o2 : FetchOutcome) :
    (sub_check url o1 o2).2.1 ≤ 2 ∧
    (∀ s si body, o1 = .resp s si body → permanentStatus s = true →
      sub_check url o1 o2 = (none, 1, 0)) ∧
    (transientOutcome o1 = true →
      (sub_check url o1 o2).2.1 = 2 ∧ (sub_check url o1 o2).2.2 = 1) ∧
    (transientOutcome o1 = false →
      (sub_check url o1 o2).2.1 = 1 ∧ (sub_check url o1 o2).2.2 = 0) := by
  have hsecond : (sub_check_second url o2).2.1 = 2 ∧ (sub_check_second url o2).2.2 = 1 := by
    cases o2 with
    | timeout => exact ⟨rfl, rfl⟩
    | exc => exact ⟨rfl, rfl⟩
    | resp s si body =>
      have e : sub_check_second url (.resp s si body) =
          if s = 200 then (classifyResponse url si body, 2, 1) else (none, 2, 1) := rfl
      rw [e]
      by_cases hs : s = 200
      · rw [if_pos hs]
        exact ⟨rfl, rfl⟩
      · rw [if_neg hs]
        exact ⟨rfl, rfl⟩
  cases o1 with
  | timeout =>
    have e : sub_check url .timeout o2 = sub_check_second url o2 := rfl
    rw [e]
    refine ⟨by omega, by intro s si body h; exact FetchOutcome.noConfusion h, ?_, ?_⟩
    · intro _
      exact hsecond
    · intro h
      exact absurd h (by simp [transientOutcome])
  | exc =>
    have e : sub_check url .exc o2 = sub_check_second url o2 := rfl
    rw [e]
    refine ⟨by omega, by intro s si body h; exact FetchOutcome.noConfusion h, ?_, ?_⟩
    · intro _
      exact hsecond
    · intro h
      exact absurd h (by simp [transientOutcome])
  | resp s si body =>
    have e : sub_check url (.resp s si body) o2 =
        if s = 200 then (classifyResponse url si body, 1, 0)
        else if permanentStatus s = true then (none, 1, 0)
        else sub_check_second url o2 := rfl
    have etr : transientOutcome (.resp s si body) = (!(s == 200) && !(permanentStatus s)) := rfl
    by_cases hs : s = 200
    · subst hs
      rw [if_pos rfl] at e
      rw [e]
      refine ⟨(by decide : (1 : Nat) ≤ 2), ?_, ?_, ?_⟩
      · intro s2 si2 body2 h hp
        obtain ⟨h1, h2, h3⟩ := FetchOutcome.resp.inj h
        rw [← h1] at hp
        exact absurd hp (by decide)
      · intro h
        rw [etr] at h
        simp at h
      · intro _
        exact ⟨rfl, rfl⟩
    · by_cases hp : permanentStatus s = true
      · rw [if_neg hs, if_pos hp] at e
        rw [e]
        refine ⟨(by decide : (1 : Nat) ≤ 2), ?_, ?_, ?_⟩
        · intro s2 si2 body2 h _
          rfl
        · intro h
          rw [etr] at h
          simp only [Bool.and_eq_true, Bool.not_eq_true'] at h
          rw [h.2] at hp
          exact Bool.noConfusion hp
        · intro _
          exact ⟨rfl, rfl⟩
      · rw [if_neg hs, if_neg hp] at e
        rw [e]
        refine ⟨by rw [hsecond.1], ?_, ?_, ?_⟩
        · intro s2 si2 body2 h hp2
          obtain ⟨h1, h2, h3⟩ := FetchOutcome.resp.inj h
          rw [← h1] at hp2
          exact absurd hp2 hp
        · intro _
          exact hsecond
        · intro h
          exfalso
          rw [etr] at h
          simp only [Bool.and_eq_false_iff, Bool.not_eq_false'] at h
          rcases h with h | h
          · exact hs (by simpa using h)
          · exact hp h

/-- C6 witness: a permanent 404 ends after one attempt with no sleep; a
    transient 503 leads to a second attempt. -/
theorem C6_witness :
    sub_check "u" (.resp 404 none "x") .timeout = (none, 1, 0) ∧
    (sub_check "u" (.resp 503 none "x") .timeout).2.1 = 2 := by
  refine ⟨(C6_retry_policy "u" (.resp 404 none "x") .timeout).2.1 404 none "x" rfl (by decide),
    ((C6_retry_policy "u" (.resp 503 none "x") .timeout).2.2.1 (by decide)).1⟩

/-- C5 (amended): a missing configuration file makes load_yaml_config
    return the default empty structure, but a malformed existing file's
    parse error propagates to the caller unhandled. -/
theorem C5_load_yaml_config :
    load_yaml_config none = Except.ok defaultConfig ∧
    (∀ e : YamlError, load_yaml_config (some (Except.error e)) = Except.error e) ∧
    (∀ c : Config, load_yaml_config (some (Except.ok c)) = Except.ok c) :=
  ⟨rfl, fun _ => rfl, fun _ => rfl⟩

/-- C5 counterexample to the claim as stated: for a present but
    malformed configuration file, load_yaml_config does not substitute
    the default structure — the parse error is propagated (the source
    wraps yaml.safe_load in no handler; its docstring promises the
    default only for a missing file). -/
theorem C5_counterexample :
    load_yaml_config (some (Except.error YamlError.malformed)) =
      Except.error YamlError.malformed ∧
    ∀ c : Config, load_yaml_config (some (Except.error YamlError.malformed)) ≠ Except.ok c := by
  exact ⟨rfl, fun c h => Except.noConfusion h⟩

theorem dictInsert_of_not_mem {d : List (String × String)} {k : String} (v : String)
    (h : k ∉ keysOf d) : dictInsert d k v = d ++ [(k, v)] := by
  induction d with
  | nil => rfl
  | cons p rest ih =>
    obtain ⟨k1, v1⟩ := p
    simp only [keysOf, List.map_cons, List.mem_cons] at h
    push_neg at h
    simp only [dictInsert]
    rw [if_neg (fun h2 => h.1 h2.symm)]
    rw [ih (by simpa [keysOf] using h.2)]
    rfl

theorem foldl_dedupStep_eq_append :
    ∀ (l : List String) (d : List (String × String)),
      (∀ u ∈ l, keyFn u ∉ keysOf d) → l.Pairwise (fun a b => keyFn a ≠ keyFn b) →
      l.foldl dedupStep d = d ++ l.map (fun u => (keyFn u, u)) := by
  intro l
  induction l with
  | nil => intro d _ _; simp
  | cons u rest ih =>
    intro d hkeys hpw
    simp only [List.foldl_cons, List.map_cons]
    rw [dedupStep_eq, dictInsert_of_not_mem u (hkeys u (List.mem_cons_self _ _))]
    rw [ih (d ++ [(keyFn u, u)]) ?_ (List.Pairwise.of_cons hpw)]
    · simp
    · intro w hw
      simp only [keysOf, List.map_append, List.mem_append, List.map_cons, List.map_nil,
        List.mem_singleton]
      push_neg
      refine ⟨?_, ?_⟩
      · have := hkeys w (List.mem_cons_of_mem _ hw)
        simpa [keysOf] using this
      · exact ((List.pairwise_cons.1 hpw).1 w hw).symm

theorem dedupe_eq_self_of_pairwise (l : List String)
    (h : l.Pairwise (fun a b => keyFn a ≠ keyFn b)) :
    deduplicate_urls_by_domain l = l := by
  unfold deduplicate_urls_by_domain buildDict
  rw [foldl_dedupStep_eq_append l [] (by simp [keysOf]) h]
  rw [List.nil_append, List.map_map,
    show (Prod.snd ∘ fun u : String => (keyFn u, u)) = id from rfl, List.map_id]

theorem dedupe_pairwise (urls : List String) :
    (deduplicate_urls_by_domain urls).Pairwise (fun a b => keyFn a ≠ keyFn b) := by
  have hnd : (keysOf (buildDict urls)).Nodup :=
    buildDict_keys_nodup urls [] (by simp [keysOf])
  have hinv : ∀ p ∈ buildDict urls, p.1 = keyFn p.2 :=
    buildDict_entry_key urls [] (by simp)
  have hpw1 : (buildDict urls).Pairwise (fun p q => p.1 ≠ q.1) :=
    List.pairwise_map.1 hnd
  have hpw2 : (buildDict urls).Pairwise (fun p q => keyFn p.2 ≠ keyFn q.2) := by
    refine hpw1.imp_of_mem ?_
    intro p q hp hq hne
    rw [hinv p hp, hinv q hq] at hne
    exact hne
  unfold deduplicate_urls_by_domain
  rw [List.pairwise_map]
  exact hpw2

theorem insertSorted_perm (a : String) :
    ∀ (l : List String), List.Perm (insertSorted a l) (a :: l) := by
  intro l
  induction l with
  | nil => exact List.Perm.refl _
  | cons b rest ih =>
    simp only [insertSorted]
    split
    · exact List.Perm.refl _
    · exact List.Perm.trans (List.Perm.cons b ih) (List.Perm.swap a b rest)

theorem sortStrings_perm : ∀ (l : List String), List.Perm (sortStrings l) l := by
  intro l
  induction l with
  | nil => exact List.Perm.refl _
  | cons a rest ih =>
    exact List.Perm.trans (insertSorted_perm a (sortStrings rest)) (List.Perm.cons a ih)

/-- C8: one run of the per-category merge step (exact-string dedup,
    alphabetical sort, then domain dedup) is a fixed point up to
    membership and size: feeding its own output back as the existing
    entries with no new entries changes neither the size nor the
    membership of the result. -/
theorem C8_merge_idempotent (existing new : List String) :
    (mergeAndDedupe (mergeAndDedupe existing new) []).length =
      (mergeAndDedupe existing new).length ∧
    ∀ u, u ∈ mergeAndDedupe (mergeAndDedupe existing new) [] ↔
      u ∈ mergeAndDedupe existing new := by
  have hpw : (mergeAndDedupe existing new).Pairwise (fun a b => keyFn a ≠ keyFn b) :=
    dedupe_pairwise _
  have hnd : (mergeAndDedupe existing new).Nodup :=
    hpw.imp (fun h he => h (congrArg keyFn he))
  have h1 : ((mergeAndDedupe existing new) ++ []).dedup = mergeAndDedupe existing new := by
    rw [List.append_nil, List.Nodup.dedup hnd]
  have h2 : List.Perm (sortStrings (mergeAndDedupe existing new)) (mergeAndDedupe existing new) :=
    sortStrings_perm _
  have hpw2 : (sortStrings (mergeAndDedupe existing new)).Pairwise
      (fun a b => keyFn a ≠ keyFn b) :=
    (List.Perm.pairwise_iff (fun h he => h he.symm) h2).2 hpw
  have h3 : mergeAndDedupe (mergeAndDedupe existing new) [] =
      sortStrings (mergeAndDedupe existing new) := by
    have e : mergeAndDedupe (mergeAndDedupe existing new) [] =
        deduplicate_urls_by_domain (sortStrings (((mergeAndDedupe existing new) ++ []).dedup)) :=
      rfl
    rw [e, h1]
    exact dedupe_eq_self_of_pairwise _ hpw2
  constructor
  · rw [h3, h2.length_eq]
  · intro u
    rw [h3]
    exact h2.mem_iff

theorem coordReach_inv {n bound : Nat} {s : CoordState} (h : CoordReach n bound s) :
    s.inFlight + s.avail = bound := by
  induction h with
  | init => simp [coordInit]
  | step hr hs ih =>
    cases hs with
    | start hp ha =>
      dsimp only at ih ⊢
      omega
    | finish hf =>
      dsimp only at ih ⊢
      omega

/-- C9: under the semaphore discipline, the coordinator never lets the
    number of in-flight probes exceed the configured bound, whatever
    the number of submitted tasks: classification probes are bounded by
    50 in check_subscriptions and by 30 in
    validate_existing_subscriptions, node-validation probes by 20 in
    check_nodes. -/
theorem C9_concurrency_bound (n : Nat) (s : CoordState) :
    (CoordReach n checkSubscriptionsSemaphore s → s.inFlight ≤ 50) ∧
    (CoordReach n validateExistingSemaphore s → s.inFlight ≤ 30) ∧
    (CoordReach n checkNodesSemaphore s → s.inFlight ≤ 20) := by
  refine ⟨?_, ?_, ?_⟩
  · intro h
    have := coordReach_inv h
    unfold checkSubscriptionsSemaphore at this
    omega
  · intro h
    have := coordReach_inv h
    unfold validateExistingSemaphore at this
    omega
  · intro h
    have := coordReach_inv h
    unfold checkNodesSemaphore at this
    omega

/-- C9 witness: the theorem applied to the initial state of a batch of
    five classification probes under the bound 50. -/
theorem C9_witness : (coordInit 5 checkSubscriptionsSemaphore).inFlight ≤ 50 :=
  (C9_concurrency_bound 5 (coordInit 5 checkSubscriptionsSemaphore)).1 CoordReach.init

/-- C10: the merge step of main rewrites exactly the four category
    buckets; the channel-source list persisted at the end of the run is
    the one loaded at the start, and the rebuilt buckets do not read
    any other field of the loaded configuration. -/
theorem C10_tgchannel_preserved (config : Config) (ve : Buckets) (nr : List Verdict) :
    (mainFinalConfig config ve nr).tgchannel = config.tgchannel ∧
    (∀ config2 : Config, config2.tgchannel = config.tgchannel →
      mainFinalConfig config2 ve nr = mainFinalConfig config ve nr) := by
  refine ⟨rfl, ?_⟩
  intro config2 h
  unfold mainFinalConfig
  rw [h]

/-- C10 witness: the theorem applied to a concrete loaded configuration
    with one channel source; the persisted channel list is unchanged,
    and a loaded configuration differing only in its buckets produces
    the same persisted configuration. -/
theorem C10_witness :
    (mainFinalConfig ⟨[], [], [], [], ["https://t.me/chan"]⟩ ⟨[], [], [], []⟩ []).tgchannel =
      ["https://t.me/chan"] ∧
    mainFinalConfig ⟨["http://old.example/a"], [], [], [], ["https://t.me/chan"]⟩
        ⟨[], [], [], []⟩ [] =
      mainFinalConfig ⟨[], [], [], [], ["https://t.me/chan"]⟩ ⟨[], [], [], []⟩ [] :=
  ⟨(C10_tgchannel_preserved ⟨[], [], [], [], ["https://t.me/chan"]⟩ ⟨[], [], [], []⟩ []).1,
    (C10_tgchannel_preserved ⟨[], [], [], [], ["https://t.me/chan"]⟩ ⟨[], [], [], []⟩ []).2
      ⟨["http://old.example/a"], [], [], [], ["https://t.me/chan"]⟩ rfl⟩

end MySub
